import Mathlib

/-!
Verification development for the sparsenetworks simulator
(`sparsenetworks/system.py`).

The discrete-event scheduler (`System.jump_to_next_event`, lines 81-277), the
phase-update law (`System.h`, lines 293-308), the connectivity generators
(`System.create_weight_matrix`, lines 381-413, and
`System.create_ext_weight_matrix`, lines 347-378), construction
(`System.__init__`, lines 42-77) and the output recording loop
(`WithOutput.run`, lines 441-525) are embedded shallowly over `ℝ`.
The Python code computes with IEEE floats; the specification states its
claims in exact arithmetic, so the embedding uses real numbers, which makes
most definitions noncomputable (they use `Real.exp`, `Real.log` and
classical decidability of real comparisons).

Randomness (`np.random.rand`) is passed in explicitly: initial phases,
connectivity draws and the uniform variates used to redraw Poisson
inter-spike intervals are parameters of the corresponding definitions.  The
code draws one fresh independent uniform per redrawn external neuron; the
embedding indexes those draws by the external neuron's index, a faithful
re-parameterisation of the same random stream.
-/

open scoped Classical

noncomputable section

namespace SparseNetworks

/-- Maximum of a list of reals, as in `numpy.ndarray.max` (`self.phases.max()`,
line 111).  The value for `[]` is arbitrary: every constructed system has at
least one internal neuron, so `phases` is never empty. -/
def listMax : List ℝ → ℝ
  | [] => 0
  | x :: xs => xs.foldl max x

/-- Minimum of a list of reals, as in `self.external_events.min()` (line 103). -/
def listMin : List ℝ → ℝ
  | [] => 0
  | x :: xs => xs.foldl min x

/-- Truthiness of `self.external_events.any()` (line 102): some entry is
nonzero. -/
def extAny (l : List ℝ) : Prop := ∃ x ∈ l, x ≠ 0

/-- Truncation toward zero, the semantics of numpy's `.astype(int)` on floats
(lines 367 and 401). -/
def pyTrunc (x : ℝ) : ℤ := if x < 0 then ⌈x⌉ else ⌊x⌋

/-- Population owning a global neuron index, implicit in the
cumulative-sum slicing `self.N[:i].sum()` used throughout `system.py`. -/
def popIndex : List ℕ → ℕ → ℕ
  | [], _ => 0
  | n :: ns, k => if k < n then 0 else popIndex ns (k - n) + 1

/-- Rate of the external population owning external neuron `i`: the loop at
lines 173-176 finds the first population whose cumulative size exceeds the
index and uses `self.rates[rate_index]`.  Indices past the last population
leave `rate_index = None` in Python (a crash on use); that case is
unreachable for well-formed indices and is mapped to 0 here. -/
def rateLookup : List ℕ → List ℝ → ℕ → ℝ
  | n :: ns, r :: rs, i => if i < n then r else rateLookup ns rs (i - n)
  | _, _, _ => 0

/-- Dot product of two equal-length real vectors (`self.weight_matrix.dot`,
line 315, restricted to one row). -/
def dot (v w : List ℝ) : ℝ := ((v.zip w).map fun q => q.1 * q.2).sum

/-- Vector of `n` zeros (`np.zeros`). -/
def zeros (n : ℕ) : List ℝ := List.replicate n 0

/-- Static data of a constructed `System`: the transmission delay `tau`, the
concatenated internal+external weight matrix (line 77), the per-neuron
`(I, gamma)` parameters (`self.I_gamma`, lines 48-58), the external
population sizes and their Poisson rates. -/
structure Params where
  tau : ℝ
  W : List (List ℝ)
  Ig : List (ℝ × ℝ)
  NExt : List ℕ
  rates : List ℝ

/-- Mutable state of a `System`: the clock `self.t`, the phase vector
`self.phases`, the pending-delivery queue `self.events` (pairs of arrival
time and spike indicator vector) and the external arrival times
`self.external_events`. -/
structure SysState where
  t : ℝ
  phases : List ℝ
  events : List (ℝ × List ℝ)
  externalEvents : List ℝ

/-- Phase-update law `System.h` (lines 293-308), element-wise body.  The code
computes `log_arg`, replaces non-positive entries by `1.0`, applies
`-(1/gamma) * log(...)`, and finally overwrites the replaced positions with
the sentinel `1.1`; the definition follows that sequence. -/
def hScalar (I γ φ ε : ℝ) : ℝ :=
  let logArg := Real.exp (-γ * φ) - γ / I * ε
  let logArgSafe := if logArg ≤ 0 then 1 else logArg
  let updated := -(1 / γ) * Real.log logArgSafe
  if logArg ≤ 0 then 1.1 else updated

/-- Vectorised `System.h`: one `hScalar` application per neuron, using that
neuron's `(I, gamma)` row of `self.I_gamma`. -/
def hVec : List (ℝ × ℝ) → List ℝ → List ℝ → List ℝ
  | q :: qs, φ :: φs, e :: es => hScalar q.1 q.2 φ e :: hVec qs φs es
  | _, _, _ => []

/-- Advance all phases by `dt` and fire: returns the spike indicator vector
(entries with advanced phase `≥ 1`, lines 125-128) and the reset phase
vector (`self.phases - spikes * self.phases`, line 131). -/
def fireReset (dt : ℝ) (phs : List ℝ) : List ℝ × List ℝ :=
  let ph1 := phs.map (· + dt)
  (ph1.map fun x => if 1 ≤ x then (1 : ℝ) else 0,
   ph1.map fun x => if 1 ≤ x then (0 : ℝ) else x)

/-- External spike indicator: entries of `external_events` equal to the
arrival instant `self.t + dt` (lines 167-169). -/
def extSpikeVec (arrT : ℝ) (ext : List ℝ) : List ℝ :=
  ext.map fun x => if x = arrT then (1 : ℝ) else 0

/-- Redraw the arrival times of the external neurons firing at `arrT`
(lines 167-179): each matched index gets
`self.t - 1/rate * log(U)` where `self.t` is the clock value BEFORE the
`self.t += dt` update at line 277 (the code calls
`get_InterSpikeInterval` before advancing the clock) and `U` is that
neuron's fresh uniform draw. -/
def redrawExt (p : Params) (us : ℕ → ℝ) (tOld arrT : ℝ) (ext : List ℝ) : List ℝ :=
  ext.mapIdx fun i x =>
    if x = arrT then tOld - 1 / rateLookup p.NExt p.rates i * Real.log (us i) else x

/-- Indices of the phases equal to the maximum (`np.where(self.phases ==
self.phases.max())`, line 139, computed before the phases are advanced). -/
def idsOfMax (l : List ℝ) : List ℕ :=
  (List.range l.length).filter fun i => l.getD i 0 = listMax l

/-- Candidate `(dt, location)` after lines 91-99: `dt` starts at the
placeholder `500.0` (location 0) and the pending-delivery queue head, when
present, takes over (location 1). -/
def selHead (s : SysState) : ℝ × ℕ :=
  if s.events = [] then ((500 : ℝ), 0) else ((s.events.headD (0, [])).1 - s.t, 1)

/-- Event selection, lines 91-111: the earliest external arrival (location 2,
or 3 on an exact tie) competes with `selHead`.  The returned pair is
`(dt, location)` just before the comparison with the self-threshold time at
line 113. -/
def selection (s : SysState) : ℝ × ℕ :=
  if extAny s.externalEvents then
    if listMin s.externalEvents - s.t < (selHead s).1 then (listMin s.externalEvents - s.t, 2)
    else if listMin s.externalEvents - s.t = (selHead s).1 then ((selHead s).1, 3)
    else selHead s
  else selHead s

/-- Condition of the pure self-threshold branch (line 113): the unclamped
time `1 - self.phases.max()` beats the selected spike-arrival time. -/
def branchATaken (s : SysState) : Prop :=
  1 - listMax s.phases < (selection s).1

/-- Pure self-threshold branch (lines 113-133): clamp `dt` at 0, advance all
phases, reset the firing ones, enqueue the spike vector for delivery at
`tau + self.t + dt`, and advance the clock.  No potential jump is applied. -/
def stepA (p : Params) (s : SysState) : SysState :=
  let dt := max (1 - listMax s.phases) 0
  let fr := fireReset dt s.phases
  { t := s.t + dt
    phases := fr.2
    events := s.events ++ [(p.tau + s.t + dt, fr.1)]
    externalEvents := s.externalEvents }

/-- Tie branch (lines 136-216): the self-threshold time equals the selected
arrival time.  The code fires and enqueues exactly as in the pure branch,
then additionally processes the arriving delivery: it assembles the combined
spike vector by location, pops the queue head for internal deliveries,
redraws matched external arrival times, applies `epsilon = W . spike_vector`
through `h`, and force-resets to 0 any argmax neuron whose updated phase
exceeds 1 (lines 214-216).  For location 0 Python would use the unbound name
`spike_vector` (a `NameError`); that case is modelled as a zero vector and
is unreachable in every state this development touches. -/
def stepTie (p : Params) (us : ℕ → ℝ) (s : SysState) : SysState :=
  let dt := max (1 - listMax s.phases) 0
  let loc := (selection s).2
  let fr := fireReset dt s.phases
  let events1 := s.events ++ [(p.tau + s.t + dt, fr.1)]
  let sv :=
    if loc = 1 then (events1.headD (0, [])).2 ++ zeros p.NExt.sum
    else if loc = 2 then zeros p.Ig.length ++ extSpikeVec (s.t + dt) s.externalEvents
    else if loc = 3 then (events1.headD (0, [])).2 ++ extSpikeVec (s.t + dt) s.externalEvents
    else zeros (p.Ig.length + p.NExt.sum)
  let events2 := if loc = 1 ∨ loc = 3 then events1.tail else events1
  let ext2 :=
    if loc = 2 ∨ loc = 3 then redrawExt p us s.t (s.t + dt) s.externalEvents
    else s.externalEvents
  let eps := p.W.map fun rowW => dot rowW sv
  let ph3 := hVec p.Ig fr.2 eps
  let ph4 := ph3.mapIdx fun i x => if i ∈ idsOfMax s.phases ∧ 1 < x then 0 else x
  { t := s.t + dt, phases := ph4, events := events2, externalEvents := ext2 }

/-- Delivery branch (lines 219-277): the next spike arrival strictly precedes
the self-threshold time.  `dt` is the selected arrival offset, applied
WITHOUT clamping; phases are advanced, the combined spike vector is
assembled by location (popping the queue head for internal deliveries and
redrawing matched external arrivals), and `h` is applied with
`epsilon = W . spike_vector`. -/
def stepElse (p : Params) (us : ℕ → ℝ) (s : SysState) : SysState :=
  let dt := (selection s).1
  let loc := (selection s).2
  let ph1 := s.phases.map (· + dt)
  let sv :=
    if loc = 1 then (s.events.headD (0, [])).2 ++ zeros p.NExt.sum
    else if loc = 2 then zeros p.Ig.length ++ extSpikeVec (s.t + dt) s.externalEvents
    else if loc = 3 then (s.events.headD (0, [])).2 ++ extSpikeVec (s.t + dt) s.externalEvents
    else zeros (p.Ig.length + p.NExt.sum)
  let events2 := if loc = 1 ∨ loc = 3 then s.events.tail else s.events
  let ext2 :=
    if loc = 2 ∨ loc = 3 then redrawExt p us s.t (s.t + dt) s.externalEvents
    else s.externalEvents
  let eps := p.W.map fun rowW => dot rowW sv
  { t := s.t + dt, phases := hVec p.Ig ph1 eps, events := events2, externalEvents := ext2 }

/-- One step of simulation: `System.jump_to_next_event` (lines 81-277). -/
def jump (p : Params) (us : ℕ → ℝ) (s : SysState) : SysState :=
  if 1 - listMax s.phases < (selection s).1 then stepA p s
  else if 1 - listMax s.phases = (selection s).1 then stepTie p us s
  else stepElse p us s

/-- Entry (row, col) of the internal weight matrix
(`System.create_weight_matrix`, lines 381-413): with `i` the target and `j`
the source population, the uniform draw `x` becomes
`1 - int(x + (1 - K/N[i]))` and is then scaled by `J_int[i, j]`. -/
def weightEntry (N : List ℕ) (J : List (List ℝ)) (K : ℝ) (row col : ℕ) (x : ℝ) : ℝ :=
  let i := popIndex N row
  ((1 : ℝ) - (pyTrunc (x + (1 - K / (N.getD i 0 : ℕ))) : ℤ)) *
    (J.getD i []).getD (popIndex N col) 0

/-- Internal weight matrix built from a matrix `r` of uniform draws
(`np.random.rand(self.N.sum(), self.N.sum())`, line 391): the block
assignments of lines 393-411 amount to applying `weightEntry` entrywise. -/
def createWeightMatrix (N : List ℕ) (J : List (List ℝ)) (K : ℝ)
    (r : List (List ℝ)) : List (List ℝ) :=
  (List.range r.length).map fun row =>
    (List.range (r.getD row []).length).map fun col =>
      weightEntry N J K row col ((r.getD row []).getD col 0)

/-- Entry (row, col) of the external weight matrix
(`System.create_ext_weight_matrix`, lines 347-378): same Bernoulli
construction with connection probability `K/N[i]` (the target population's
size), scaled by `J_ext[i, j]` with `j` the source EXTERNAL population. -/
def extWeightEntry (N NExt : List ℕ) (J : List (List ℝ)) (K : ℝ)
    (row col : ℕ) (x : ℝ) : ℝ :=
  let i := popIndex N row
  ((1 : ℝ) - (pyTrunc (x + (1 - K / (N.getD i 0 : ℕ))) : ℤ)) *
    (J.getD i []).getD (popIndex NExt col) 0

/-- External weight matrix from a `(N.sum) x (N_ext.sum)` matrix of uniform
draws (line 357). -/
def createExtWeightMatrix (N NExt : List ℕ) (J : List (List ℝ)) (K : ℝ)
    (r : List (List ℝ)) : List (List ℝ) :=
  (List.range r.length).map fun row =>
    (List.range (r.getD row []).length).map fun col =>
      extWeightEntry N NExt J K row col ((r.getD row []).getD col 0)

/-- Per-neuron `(I, gamma)` array `self.I_gamma` (lines 48-58): neuron `k`
gets the parameters of its owning population. -/
def initIgamma (N : List ℕ) (I γ : List ℝ) : List (ℝ × ℝ) :=
  (List.range N.sum).map fun k => (I.getD (popIndex N k) 0, γ.getD (popIndex N k) 0)

/-- Initial external arrival times (`System.get_initial_ISI`, lines 324-334):
every external neuron draws `0 - 1/rate * log(U)` at construction time
(`self.t = 0`). -/
def initExternalEvents (NExt : List ℕ) (rates : List ℝ) (us : ℕ → ℝ) : List ℝ :=
  (List.range NExt.sum).map fun i => 0 - 1 / rateLookup NExt rates i * Real.log (us i)

/-- Construction, `System.__init__` (lines 42-77).  The source performs NO
input validation: it builds `I_gamma`, sets `t = 0` and `events = []`, draws
the initial external arrival times and phases, and concatenates the internal
and external weight matrices column-wise.  Every operation is total for any
`K` (including `K <= 0`) as long as no external population has rate 0. -/
def systemInit (N : List ℕ) (Jint : List (List ℝ)) (I γ : List ℝ) (K tau : ℝ)
    (NExt : List ℕ) (Jext : List (List ℝ)) (rates : List ℝ)
    (phaseDraws : List ℝ) (wDraws wExtDraws : List (List ℝ)) (isiDraws : ℕ → ℝ) :
    Params × SysState :=
  ({ tau := tau
     W := (createWeightMatrix N Jint K wDraws).zipWith (· ++ ·)
            (createExtWeightMatrix N NExt Jext K wExtDraws)
     Ig := initIgamma N I γ
     NExt := NExt
     rates := rates },
   { t := 0
     phases := phaseDraws
     events := []
     externalEvents := initExternalEvents NExt rates isiDraws })

/-- Run loop `System.run` / the `while self.t < t_end` loop of
`WithOutput.run` (lines 283-285, 478-480), with explicit fuel: `none` means
the loop is still running after `fuel` iterations.  `us n` is the oracle of
uniform draws for step `n`. -/
def runFuel (p : Params) (tEnd : ℝ) : (ℕ → ℕ → ℝ) → ℕ → SysState → Option SysState
  | _, 0, s => if s.t < tEnd then none else some s
  | us, n + 1, s =>
    if s.t < tEnd then runFuel p tEnd (fun k => us (k + 1)) n (jump p (us 0) s)
    else some s

/-- State after `n` simulation steps. -/
def iterState (p : Params) : (ℕ → ℕ → ℝ) → ℕ → SysState → SysState
  | _, 0, s => s
  | us, n + 1, s => iterState p (fun k => us (k + 1)) n (jump p (us 0) s)

/-- Phase records of `WithOutput.run`: after every `jump_to_next_event` the
loop appends the row `(self.t, self.phases)` (lines 490-491). -/
def phaseRows (p : Params) : (ℕ → ℕ → ℝ) → ℕ → SysState → List (ℝ × List ℝ)
  | _, 0, _ => []
  | us, n + 1, s =>
    ((jump p (us 0) s).t, (jump p (us 0) s).phases) ::
      phaseRows p (fun k => us (k + 1)) n (jump p (us 0) s)

/-- Spike record taken after one step of `WithOutput.run` (lines 482-488):
when the queue is nonempty and the LAST queue entry (the most recently
enqueued delivery) has an arrival time beyond the high-water mark `last_t`,
the row `(arrival_time - tau, indicator)` is recorded. -/
def recordSpike (tau lastT : ℝ) (s : SysState) : Option (ℝ × List ℝ) :=
  match s.events.getLast? with
  | none => none
  | some e => if lastT < e.1 then some (e.1 - tau, e.2) else none

/-- Flush-and-rotate of the phase buffer (lines 493-516): full chunks of
`c = output_size` rows are persisted as numbered artifacts, the final
partial chunk is persisted on completion.  Concatenating the artifacts in
numeric order is concatenating these chunks. -/
def splitChunks {α : Type} (c : ℕ) (l : List α) : List (List α) :=
  if h : c = 0 ∨ l.length ≤ c then [l]
  else l.take c :: splitChunks c (l.drop c)
termination_by l.length
decreasing_by
  simp only [List.length_drop]
  push_neg at h
  omega

/-- Every queued delivery and external arrival lies at or after the current
clock value. -/
def futureEvents (s : SysState) : Prop :=
  (∀ e ∈ s.events, s.t ≤ e.1) ∧ ∀ x ∈ s.externalEvents, s.t ≤ x

/-- Modelled from the spec (section 4.4, step 2), for comparison with the
code's branch condition:  `dt_self = max(0, 1 - max(phases))` is the STRICT
UNIQUE minimum among `dt_self`, the time to the pending-delivery queue head
(infinite when the queue is empty) and the time to the nearest external
arrival (infinite when there are no external neurons). -/
def selfStrictMin (s : SysState) : Prop :=
  (s.events ≠ [] → max (1 - listMax s.phases) 0 < (s.events.headD (0, [])).1 - s.t) ∧
  (s.externalEvents ≠ [] → max (1 - listMax s.phases) 0 < listMin s.externalEvents - s.t)

/-- Non-termination of the run loop: no amount of fuel makes the
`while self.t < t_end` loop exit. -/
def neverExits (p : Params) (tEnd : ℝ) (us : ℕ → ℕ → ℝ) (s : SysState) : Prop :=
  ∀ n : ℕ, runFuel p tEnd us n s = none

/-! ### Concrete systems used in counterexamples and witnesses

Each is a valid construction in the sense of the spec's section 6 (positive
population sizes, positive `K`, non-negative `tau`, positive rates), with
its random draws fixed to explicit values in `[0, 1)`. -/

/-- Constant per-step draw oracle (the concrete runs below never consume a
draw whose value matters beyond being in `(0, 1)`). -/
def uZ : ℕ → ℕ → ℝ := fun _ _ => 1 / 2

/-- Single-step draw oracle. -/
def uC : ℕ → ℝ := fun _ => 1 / 2

/-- Saturating self-coupled neuron: `N = [1]`, `J_int = [[5]]`, `I = [1]`,
`gamma = [1]`, `K = 1`, `tau = 1/20`, no external input.  With `K = N` the
single self-edge is present with probability 1, so `W = [[5]]`. -/
def pSat : Params := { tau := 1 / 20, W := [[5]], Ig := [(1, 1)], NExt := [], rates := [] }

/-- Initial state of the saturating system: initial phase draw `1/2`. -/
def sSat0 : SysState := { t := 0, phases := [1 / 2], events := [], externalEvents := [] }

/-- After step 1 (pure self-threshold branch): the neuron fired and was
reset; its spike is in flight, arriving at `1/2 + tau = 11/20`. -/
def sSat1 : SysState :=
  { t := 1 / 2, phases := [0], events := [(11 / 20, [1])], externalEvents := [] }

/-- After step 2 (delivery branch): the delivered jump `epsilon = 5`
saturates the neuron, `h` returns the sentinel `1.1`. -/
def sSat2 : SysState :=
  { t := 11 / 20, phases := [11 / 10], events := [], externalEvents := [] }

/-- After step 3 (self-threshold branch with `dt = 0`): the sentinel phase is
reset and re-emitted; the clock does not advance. -/
def sSat3 : SysState :=
  { t := 11 / 20, phases := [0], events := [(3 / 5, [1])], externalEvents := [] }

/-- Saturating self-coupled neuron with ZERO delay: `tau = 0`, otherwise as
`pSat`.  The spec admits `tau = 0` ("transmission delay tau
(non-negative)"). -/
def pLoop : Params := { tau := 0, W := [[5]], Ig := [(1, 1)], NExt := [], rates := [] }

/-- Initial state of the zero-delay system: initial phase draw `3/5`. -/
def sL0 : SysState := { t := 0, phases := [3 / 5], events := [], externalEvents := [] }

/-- Loop state B: spike in flight arriving NOW (`tau = 0`). -/
def sLB : SysState :=
  { t := 2 / 5, phases := [0], events := [(2 / 5, [1])], externalEvents := [] }

/-- Loop state A: sentinel phase, empty queue, clock unchanged. -/
def sLA : SysState :=
  { t := 2 / 5, phases := [11 / 10], events := [], externalEvents := [] }

/-- One neuron driven only by one external Poisson source with zero coupling:
`N = [1]`, `J_int = [[0]]`, `N_ext = [1]`, `J_ext = [[0]]`, `rates = [1]`,
`K = 1`, `tau = 1/20`; hence `W = [[0, 0]]`. -/
def pExt : Params := { tau := 1 / 20, W := [[0, 0]], Ig := [(1, 1)], NExt := [1], rates := [1] }

/-- Initial state: phase draw `1/10`, initial external arrival at `3/10`
(uniform draw `exp(-3/10)`). -/
def sE0 : SysState := { t := 0, phases := [1 / 10], events := [], externalEvents := [3 / 10] }

/-- After processing the external arrival at `3/10`: the redraw used the OLD
clock `t = 0`, so with uniform draw `exp(-1/5)` the next arrival lands at
`1/5`, strictly in the PAST of the new clock `3/10`. -/
def sE1 : SysState :=
  { t := 3 / 10, phases := [2 / 5], events := [], externalEvents := [1 / 5] }

/-- After the stale arrival is processed: the clock has DECREASED to `1/5`. -/
def sE2 : SysState :=
  { t := 1 / 5, phases := [3 / 10], events := [], externalEvents := [13 / 10] }

/-- Step-1 draw oracle for the external system: uniform `exp(-1/5)`. -/
def uE1 : ℕ → ℝ := fun _ => Real.exp (-(1 / 5))

/-- Step-2 draw oracle for the external system: uniform `exp(-1)`. -/
def uE2 : ℕ → ℝ := fun _ => Real.exp (-1)

/-- One neuron saturated by a strong external source: as `pExt` but
`J_ext = [[5]]`, so `W = [[0, 5]]`. -/
def pStale : Params := { tau := 1 / 20, W := [[0, 5]], Ig := [(1, 1)], NExt := [1], rates := [1] }

/-- Initial state of the stale-arrival system: phase `1/10`, external arrival
at `3/10`. -/
def sS0 : SysState := { t := 0, phases := [1 / 10], events := [], externalEvents := [3 / 10] }

/-- After processing the external arrival: jump `epsilon = 5` saturates the
neuron (sentinel `11/10`) while the redraw (uniform `exp(-1/4)`, applied at
the OLD clock 0) schedules the next external arrival at `1/4 < 3/10`: a
sentinel phase coexists with a past-due external arrival. -/
def sS1 : SysState :=
  { t := 3 / 10, phases := [11 / 10], events := [], externalEvents := [1 / 4] }

/-- Draw oracle for the stale-arrival step: uniform `exp(-1/4)`. -/
def uSt : ℕ → ℝ := fun _ => Real.exp (-(1 / 4))

/-- One self-coupled neuron with `J_int = [[exp(-1/20) - exp(-2)]]`
(about 0.816), `I = [1]`, `gamma = [1]`, `K = 1`, `tau = 1/20`: the
single self-edge is present, so `W = [[exp(-1/20) - exp(-2)]]`. -/
def pC1 : Params :=
  { tau := 1 / 20, W := [[Real.exp (-(1 / 20)) - Real.exp (-2)]], Ig := [(1, 1)],
    NExt := [], rates := [] }

/-- Initial state: phase draw `1/2`. -/
def sC10 : SysState := { t := 0, phases := [1 / 2], events := [], externalEvents := [] }

/-- After step 1 (self-threshold): reset, spike in flight for `11/20`. -/
def sC11 : SysState :=
  { t := 1 / 2, phases := [0], events := [(11 / 20, [1])], externalEvents := [] }

/-- After step 2 (delivery): the advanced phase is `1/20` and the jump gives
`log_arg = exp(-2)`, so `h` returns the phase 2, far above the sentinel
bound `1.1`. -/
def sC12 : SysState :=
  { t := 11 / 20, phases := [2], events := [], externalEvents := [] }

end SparseNetworks

end

namespace SparseNetworks

/-! ### Generic helper lemmas -/

theorem foldl_min_choice (xs : List ℝ) : ∀ a : ℝ, xs.foldl min a = a ∨ xs.foldl min a ∈ xs := by
  induction xs with
  | nil => intro a; left; rfl
  | cons x xs ih =>
    intro a
    rw [List.foldl_cons]
    rcases ih (min a x) with h | h
    · rw [h]
      rcases min_choice a x with h2 | h2
      · left; exact h2
      · right; rw [h2]; exact List.mem_cons_self _ _
    · right; exact List.mem_cons_of_mem _ h

theorem listMin_mem (l : List ℝ) (h : l ≠ []) : listMin l ∈ l := by
  rcases l with _ | ⟨x, xs⟩
  · exact absurd rfl h
  · show xs.foldl min x ∈ x :: xs
    rcases foldl_min_choice xs x with h2 | h2
    · rw [h2]; exact List.mem_cons_self _ _
    · exact List.mem_cons_of_mem _ h2

theorem getD_range_map {β : Type} (f : ℕ → β) (n k : ℕ) (d : β) (h : k < n) :
    ((List.range n).map f).getD k d = f k := by
  have h1 : k < ((List.range n).map f).length := by simpa using h
  rw [List.getD_eq_getElem _ _ h1]
  simp

/-! ### Lemmas about the embedded operations -/

theorem hScalar_id (φ : ℝ) : hScalar 1 1 φ 0 = φ := by
  unfold hScalar
  have h1 : (0:ℝ) < Real.exp (-1 * φ) - 1 / 1 * 0 := by
    simpa using Real.exp_pos (-1 * φ)
  rw [if_neg (by linarith), if_neg (by linarith)]
  simp [Real.log_exp]

theorem hScalar_sat (φ ε : ℝ) (hφ : 0 ≤ φ) (hε : 1 ≤ ε) : hScalar 1 1 φ ε = 1.1 := by
  unfold hScalar
  have h1 : Real.exp (-1 * φ) ≤ Real.exp 0 := Real.exp_le_exp.mpr (by linarith)
  rw [Real.exp_zero] at h1
  rw [if_pos (by linarith)]

theorem selection_nonneg (s : SysState)
    (hev : ∀ e ∈ s.events, s.t ≤ e.1)
    (hext : ∀ x ∈ s.externalEvents, s.t ≤ x) : 0 ≤ (selection s).1 := by
  have hd1 : 0 ≤ (selHead s).1 := by
    unfold selHead
    split_ifs with h
    · norm_num
    · rcases hE : s.events with _ | ⟨e, es⟩
      · exact absurd hE h
      · have hmem : e ∈ s.events := by rw [hE]; exact List.mem_cons_self e es
        simpa using sub_nonneg.mpr (hev e hmem)
  have hm : extAny s.externalEvents → 0 ≤ listMin s.externalEvents - s.t := by
    rintro ⟨x, hx, -⟩
    have hne : s.externalEvents ≠ [] := by
      intro he; rw [he] at hx; exact List.not_mem_nil x hx
    exact sub_nonneg.mpr (hext _ (listMin_mem _ hne))
  unfold selection
  split_ifs with h1 h2 h3
  · exact hm h1
  · exact hd1
  · exact hd1
  · exact hd1

theorem jump_t_le (p : Params) (us : ℕ → ℝ) (s : SysState) (hf : futureEvents s) :
    s.t ≤ (jump p us s).t := by
  have hsel : 0 ≤ (selection s).1 := selection_nonneg s hf.1 hf.2
  have hmax : (0:ℝ) ≤ max (1 - listMax s.phases) 0 := le_max_right _ _
  unfold jump
  split_ifs with h1 h2
  · simp only [stepA]; linarith
  · simp only [stepTie]; linarith
  · simp only [stepElse]; linarith

theorem splitChunks_le {α : Type} (c : ℕ) :
    ∀ (n : ℕ) (l : List α), l.length ≤ n → (splitChunks c l).flatten = l := by
  intro n
  induction n with
  | zero =>
    intro l hl
    have : l = [] := List.eq_nil_of_length_eq_zero (Nat.le_zero.mp hl)
    subst this
    rw [splitChunks]
    simp
  | succ n ih =>
    intro l hl
    rw [splitChunks]
    split_ifs with h
    · simp
    · push_neg at h
      have hdrop : (l.drop c).length ≤ n := by
        simp only [List.length_drop]
        omega
      rw [List.flatten_cons, ih _ hdrop, List.take_append_drop]

theorem splitChunks_flatten {α : Type} (c : ℕ) (l : List α) : (splitChunks c l).flatten = l :=
  splitChunks_le c l.length l le_rfl

theorem phaseRows_length (p : Params) :
    ∀ (n : ℕ) (us : ℕ → ℕ → ℝ) (s : SysState), (phaseRows p us n s).length = n := by
  intro n
  induction n with
  | zero => intro us s; rfl
  | succ n ih => intro us s; simp [phaseRows, ih]

theorem phaseRows_chain (p : Params) :
    ∀ (n : ℕ) (us : ℕ → ℕ → ℝ) (s : SysState),
      (∀ k, k < n → futureEvents (iterState p us k s)) →
      List.Chain' (· ≤ ·) (s.t :: (phaseRows p us n s).map Prod.fst) := by
  intro n
  induction n with
  | zero => intro us s _; simp [phaseRows]
  | succ n ih =>
    intro us s hgood
    have h0 : futureEvents s := hgood 0 (Nat.succ_pos n)
    have hrec : ∀ k, k < n → futureEvents (iterState p (fun j => us (j + 1)) k (jump p (us 0) s)) := by
      intro k hk
      exact hgood (k + 1) (Nat.succ_lt_succ hk)
    have htail := ih (fun j => us (j + 1)) (jump p (us 0) s) hrec
    simp only [phaseRows, List.map_cons]
    exact List.chain'_cons.mpr ⟨jump_t_le p (us 0) s h0, htail⟩

/-! ### Evaluation of the concrete runs -/

theorem extAny_nil : ¬ extAny [] := by simp [extAny]

theorem selection_sSat0_fst : (selection sSat0).1 = 500 := by
  simp [selection, selHead, extAny, sSat0]

theorem jump_sSat0 (u : ℕ → ℝ) : jump pSat u sSat0 = sSat1 := by
  have hmax : listMax sSat0.phases = 1 / 2 := rfl
  have hdt : max (1 - listMax sSat0.phases) 0 = 1 / 2 := by
    rw [hmax]
    rw [max_eq_left (by norm_num : (0:ℝ) ≤ 1 - 1 / 2)]
    norm_num
  unfold jump
  rw [hmax, selection_sSat0_fst, if_pos (by norm_num : (1:ℝ) - 1 / 2 < 500)]
  unfold stepA
  rw [hdt]
  simp only [sSat0, sSat1, pSat, fireReset, List.map_cons, List.map_nil]
  norm_num

theorem selection_sSat1_fst : (selection sSat1).1 = 1 / 20 := by
  simp [selection, selHead, extAny, sSat1]
  norm_num

theorem selection_sSat1_snd : (selection sSat1).2 = 1 := by
  simp [selection, selHead, extAny, sSat1]

theorem jump_sSat1 (u : ℕ → ℝ) : jump pSat u sSat1 = sSat2 := by
  have hmax : listMax sSat1.phases = 0 := rfl
  unfold jump
  rw [hmax, selection_sSat1_fst]
  rw [if_neg (by norm_num : ¬ ((1:ℝ) - 0 < 1 / 20)), if_neg (by norm_num : ¬ ((1:ℝ) - 0 = 1 / 20))]
  unfold stepElse
  rw [selection_sSat1_fst, selection_sSat1_snd]
  have hh : hScalar 1 1 (1 / 20) 5 = 1.1 :=
    hScalar_sat _ _ (by norm_num) (by norm_num)
  simp only [sSat1, sSat2, pSat, zeros, hVec, dot, List.map_cons, List.map_nil,
    List.zip_cons_cons, List.zip_nil_right, List.sum_cons, List.sum_nil]
  norm_num [hh]

theorem selection_sSat2_fst : (selection sSat2).1 = 500 := by
  simp [selection, selHead, extAny, sSat2]

theorem jump_sSat2 (u : ℕ → ℝ) : jump pSat u sSat2 = sSat3 := by
  have hmax : listMax sSat2.phases = 11 / 10 := rfl
  have hdt : max (1 - listMax sSat2.phases) 0 = 0 := by
    rw [hmax]
    rw [max_eq_right (by norm_num : (1:ℝ) - 11 / 10 ≤ 0)]
  unfold jump
  rw [hmax, selection_sSat2_fst, if_pos (by norm_num : (1:ℝ) - 11 / 10 < 500)]
  unfold stepA
  rw [hdt]
  simp only [sSat2, sSat3, pSat, fireReset, List.map_cons, List.map_nil]
  norm_num

theorem hScalar_pos_case (I γ φ ε : ℝ) (h : 0 < Real.exp (-γ * φ) - γ / I * ε) :
    hScalar I γ φ ε = -(1 / γ) * Real.log (Real.exp (-γ * φ) - γ / I * ε) := by
  simp only [hScalar]
  rw [if_neg (not_le.mpr h), if_neg (not_le.mpr h)]

theorem hScalar_neg_case (I γ φ ε : ℝ) (h : Real.exp (-γ * φ) - γ / I * ε ≤ 0) :
    hScalar I γ φ ε = 1.1 := by
  simp only [hScalar]
  rw [if_pos h]

theorem selection_sL0_fst : (selection sL0).1 = 500 := by
  simp [selection, selHead, extAny, sL0]

theorem jump_sL0 (u : ℕ → ℝ) : jump pLoop u sL0 = sLB := by
  have hmax : listMax sL0.phases = 3 / 5 := rfl
  have hdt : max (1 - listMax sL0.phases) 0 = 2 / 5 := by
    rw [hmax]
    rw [max_eq_left (by norm_num : (0:ℝ) ≤ 1 - 3 / 5)]
    norm_num
  unfold jump
  rw [hmax, selection_sL0_fst, if_pos (by norm_num : (1:ℝ) - 3 / 5 < 500)]
  unfold stepA
  rw [hdt]
  simp only [sL0, sLB, pLoop, fireReset, List.map_cons, List.map_nil]
  norm_num

theorem selection_sLB_fst : (selection sLB).1 = 0 := by
  simp [selection, selHead, extAny, sLB]

theorem selection_sLB_snd : (selection sLB).2 = 1 := by
  simp [selection, selHead, extAny, sLB]

theorem jump_sLB (u : ℕ → ℝ) : jump pLoop u sLB = sLA := by
  have hmax : listMax sLB.phases = 0 := rfl
  unfold jump
  rw [hmax, selection_sLB_fst]
  rw [if_neg (by norm_num : ¬ ((1:ℝ) - 0 < 0)), if_neg (by norm_num : ¬ ((1:ℝ) - 0 = 0))]
  unfold stepElse
  rw [selection_sLB_fst, selection_sLB_snd]
  have hh : hScalar 1 1 0 5 = 1.1 := hScalar_sat _ _ le_rfl (by norm_num)
  simp only [sLB, sLA, pLoop, zeros, hVec, dot, List.map_cons, List.map_nil,
    List.zip_cons_cons, List.zip_nil_right, List.sum_cons, List.sum_nil]
  norm_num [hh]

theorem selection_sLA_fst : (selection sLA).1 = 500 := by
  simp [selection, selHead, extAny, sLA]

theorem jump_sLA (u : ℕ → ℝ) : jump pLoop u sLA = sLB := by
  have hmax : listMax sLA.phases = 11 / 10 := rfl
  have hdt : max (1 - listMax sLA.phases) 0 = 0 := by
    rw [hmax]
    rw [max_eq_right (by norm_num : (1:ℝ) - 11 / 10 ≤ 0)]
  unfold jump
  rw [hmax, selection_sLA_fst, if_pos (by norm_num : (1:ℝ) - 11 / 10 < 500)]
  unfold stepA
  rw [hdt]
  simp only [sLA, sLB, pLoop, fireReset, List.map_cons, List.map_nil]
  norm_num

theorem selection_sC10_fst : (selection sC10).1 = 500 := by
  simp [selection, selHead, extAny, sC10]

theorem jump_sC10 (u : ℕ → ℝ) : jump pC1 u sC10 = sC11 := by
  have hmax : listMax sC10.phases = 1 / 2 := rfl
  have hdt : max (1 - listMax sC10.phases) 0 = 1 / 2 := by
    rw [hmax]
    rw [max_eq_left (by norm_num : (0:ℝ) ≤ 1 - 1 / 2)]
    norm_num
  unfold jump
  rw [hmax, selection_sC10_fst, if_pos (by norm_num : (1:ℝ) - 1 / 2 < 500)]
  unfold stepA
  rw [hdt]
  simp only [sC10, sC11, pC1, fireReset, List.map_cons, List.map_nil]
  norm_num

theorem selection_sC11_fst : (selection sC11).1 = 1 / 20 := by
  simp [selection, selHead, extAny, sC11]
  norm_num

theorem selection_sC11_snd : (selection sC11).2 = 1 := by
  simp [selection, selHead, extAny, sC11]

theorem jump_sC11 (u : ℕ → ℝ) : jump pC1 u sC11 = sC12 := by
  have hmax : listMax sC11.phases = 0 := rfl
  have hkey : Real.exp (-1 * (1 / 20)) - 1 / 1 * (Real.exp (-(1 / 20)) - Real.exp (-2))
      = Real.exp (-2) := by
    have e1 : (-1 : ℝ) * (1 / 20) = -(1 / 20) := by norm_num
    rw [e1]
    ring
  have hpos : (0:ℝ) < Real.exp (-1 * (1 / 20)) - 1 / 1 * (Real.exp (-(1 / 20)) - Real.exp (-2)) := by
    rw [hkey]
    exact Real.exp_pos _
  have hh := hScalar_pos_case 1 1 (1 / 20) (Real.exp (-(1 / 20)) - Real.exp (-2)) hpos
  rw [hkey, Real.log_exp] at hh
  norm_num at hh
  unfold jump
  rw [hmax, selection_sC11_fst]
  rw [if_neg (by norm_num : ¬ ((1:ℝ) - 0 < 1 / 20)), if_neg (by norm_num : ¬ ((1:ℝ) - 0 = 1 / 20))]
  unfold stepElse
  rw [selection_sC11_fst, selection_sC11_snd]
  simp only [sC11, sC12, pC1, zeros, hVec, dot, List.map_cons, List.map_nil,
    List.zip_cons_cons, List.zip_nil_right, List.sum_cons, List.sum_nil]
  norm_num [hh]

theorem selection_sE0 : selection sE0 = (3 / 10, 2) := by
  have hA : extAny sE0.externalEvents := ⟨3 / 10, by simp [sE0], by norm_num⟩
  unfold selection
  rw [if_pos hA]
  have hm : listMin sE0.externalEvents - sE0.t = 3 / 10 := by
    simp [listMin, sE0]
  have hh : (selHead sE0).1 = 500 := by simp [selHead, sE0]
  rw [hm, hh, if_pos (by norm_num : (3:ℝ) / 10 < 500)]

theorem jump_sE0 : jump pExt uE1 sE0 = sE1 := by
  have hmax : listMax sE0.phases = 1 / 10 := rfl
  have hs1 : (selection sE0).1 = 3 / 10 := by rw [selection_sE0]
  have hs2 : (selection sE0).2 = 2 := by rw [selection_sE0]
  have hid : hScalar 1 1 (2 / 5) 0 = 2 / 5 := hScalar_id _
  unfold jump
  rw [hmax, hs1]
  rw [if_neg (by norm_num : ¬ ((1:ℝ) - 1 / 10 < 3 / 10)),
    if_neg (by norm_num : ¬ ((1:ℝ) - 1 / 10 = 3 / 10))]
  unfold stepElse
  rw [hs1, hs2]
  simp only [sE0, sE1, pExt, uE1, zeros, extSpikeVec, redrawExt, hVec, dot, rateLookup,
    List.map_cons, List.map_nil, List.mapIdx_cons, List.mapIdx_nil,
    List.replicate_succ, List.replicate_zero, List.zip_cons_cons, List.zip_nil_right,
    List.sum_cons, List.sum_nil]
  norm_num [Real.log_exp, hid]

theorem selection_sE1 : selection sE1 = (-(1 / 10), 2) := by
  have hA : extAny sE1.externalEvents := ⟨1 / 5, by simp [sE1], by norm_num⟩
  unfold selection
  rw [if_pos hA]
  have hm : listMin sE1.externalEvents - sE1.t = -(1 / 10) := by
    simp [listMin, sE1]
    norm_num
  have hh : (selHead sE1).1 = 500 := by simp [selHead, sE1]
  rw [hm, hh, if_pos (by norm_num : -((1:ℝ) / 10) < 500)]

theorem jump_sE1 : jump pExt uE2 sE1 = sE2 := by
  have hmax : listMax sE1.phases = 2 / 5 := rfl
  have hs1 : (selection sE1).1 = -(1 / 10) := by rw [selection_sE1]
  have hs2 : (selection sE1).2 = 2 := by rw [selection_sE1]
  have hid : hScalar 1 1 (3 / 10) 0 = 3 / 10 := hScalar_id _
  unfold jump
  rw [hmax, hs1]
  rw [if_neg (by norm_num : ¬ ((1:ℝ) - 2 / 5 < -(1 / 10))),
    if_neg (by norm_num : ¬ ((1:ℝ) - 2 / 5 = -(1 / 10)))]
  unfold stepElse
  rw [hs1, hs2]
  simp only [sE1, sE2, pExt, uE2, zeros, extSpikeVec, redrawExt, hVec, dot, rateLookup,
    List.map_cons, List.map_nil, List.mapIdx_cons, List.mapIdx_nil,
    List.replicate_succ, List.replicate_zero, List.zip_cons_cons, List.zip_nil_right,
    List.sum_cons, List.sum_nil]
  norm_num [Real.log_exp, hid]

theorem selection_sS0 : selection sS0 = (3 / 10, 2) := by
  have hA : extAny sS0.externalEvents := ⟨3 / 10, by simp [sS0], by norm_num⟩
  unfold selection
  rw [if_pos hA]
  have hm : listMin sS0.externalEvents - sS0.t = 3 / 10 := by
    simp [listMin, sS0]
  have hh : (selHead sS0).1 = 500 := by simp [selHead, sS0]
  rw [hm, hh, if_pos (by norm_num : (3:ℝ) / 10 < 500)]

theorem jump_sS0 : jump pStale uSt sS0 = sS1 := by
  have hmax : listMax sS0.phases = 1 / 10 := rfl
  have hs1 : (selection sS0).1 = 3 / 10 := by rw [selection_sS0]
  have hs2 : (selection sS0).2 = 2 := by rw [selection_sS0]
  have hsat : hScalar 1 1 (2 / 5) 5 = 1.1 := hScalar_sat _ _ (by norm_num) (by norm_num)
  unfold jump
  rw [hmax, hs1]
  rw [if_neg (by norm_num : ¬ ((1:ℝ) - 1 / 10 < 3 / 10)),
    if_neg (by norm_num : ¬ ((1:ℝ) - 1 / 10 = 3 / 10))]
  unfold stepElse
  rw [hs1, hs2]
  simp only [sS0, sS1, pStale, uSt, zeros, extSpikeVec, redrawExt, hVec, dot, rateLookup,
    List.map_cons, List.map_nil, List.mapIdx_cons, List.mapIdx_nil,
    List.replicate_succ, List.replicate_zero, List.zip_cons_cons, List.zip_nil_right,
    List.sum_cons, List.sum_nil]
  norm_num [Real.log_exp, hsat]

theorem selection_sS1_fst : (selection sS1).1 = -(1 / 20) := by
  have hA : extAny sS1.externalEvents := ⟨1 / 4, by simp [sS1], by norm_num⟩
  unfold selection
  rw [if_pos hA]
  have hm : listMin sS1.externalEvents - sS1.t = -(1 / 20) := by
    simp [listMin, sS1]
    norm_num
  have hh : (selHead sS1).1 = 500 := by simp [selHead, sS1]
  rw [hm, hh, if_pos (by norm_num : -((1:ℝ) / 20) < 500)]

theorem createWeightMatrix_entry (N : List ℕ) (J : List (List ℝ)) (K : ℝ) (r : List (List ℝ))
    (row col : ℕ) (hrow : row < r.length) (hcol : col < (r.getD row []).length) :
    ((createWeightMatrix N J K r).getD row []).getD col 0
      = weightEntry N J K row col ((r.getD row []).getD col 0) := by
  unfold createWeightMatrix
  rw [getD_range_map _ _ _ _ hrow, getD_range_map _ _ _ _ hcol]

theorem getD_mem_of_lt {β : Type} (l : List β) (k : ℕ) (d : β) (h : k < l.length) :
    l.getD k d ∈ l := by
  rw [List.getD_eq_getElem _ _ h]
  exact List.getElem_mem _

theorem pyTrunc_eq_zero (y : ℝ) (h1 : -1 < y) (h2 : y < 1) : pyTrunc y = 0 := by
  unfold pyTrunc
  split_ifs with hsign
  · rw [Int.ceil_eq_zero_iff]
    exact Set.mem_Ioc.mpr ⟨h1, le_of_lt hsign⟩
  · rw [Int.floor_eq_zero_iff]
    exact Set.mem_Ico.mpr ⟨not_lt.mp hsign, h2⟩

theorem hScalar_zero_eps (I γ φ : ℝ) (hγ : γ ≠ 0) : hScalar I γ φ 0 = φ := by
  have harg : Real.exp (-γ * φ) - γ / I * 0 = Real.exp (-γ * φ) := by ring
  have hpos : 0 < Real.exp (-γ * φ) - γ / I * 0 := by
    rw [harg]; exact Real.exp_pos _
  rw [hScalar_pos_case _ _ _ _ hpos, harg, Real.log_exp]
  field_simp

/-! ### The claims -/

/-- C3: for every phase value, parameters `I` and `gamma`, and potential jump
`epsilon`, the phase-update law `h` returns
`-(1/gamma) * ln(exp(-gamma * phase) - (gamma / I) * epsilon)` when that
logarithm argument is strictly positive, and returns exactly the sentinel
`1.1` when the logarithm argument is `≤ 0`. -/
theorem C3_h_formula (I γ φ ε : ℝ) :
    (0 < Real.exp (-γ * φ) - γ / I * ε →
      hScalar I γ φ ε = -(1 / γ) * Real.log (Real.exp (-γ * φ) - γ / I * ε)) ∧
    (Real.exp (-γ * φ) - γ / I * ε ≤ 0 → hScalar I γ φ ε = 1.1) :=
  ⟨hScalar_pos_case I γ φ ε, hScalar_neg_case I γ φ ε⟩

/-- Witness for C3 at `I = 1`, `gamma = 1`, `phase = 0` with `epsilon = 0`
(regular branch) and `epsilon = 2` (sentinel branch). -/
theorem C3_h_formula_witness :
    ((0:ℝ) < Real.exp (-(1:ℝ) * 0) - 1 / 1 * 0 ∧
      hScalar 1 1 0 0 = -(1 / 1) * Real.log (Real.exp (-(1:ℝ) * 0) - 1 / 1 * 0)) ∧
    (Real.exp (-(1:ℝ) * 0) - 1 / 1 * 2 ≤ 0 ∧ hScalar 1 1 0 2 = 1.1) := by
  have h1 : (0:ℝ) < Real.exp (-(1:ℝ) * 0) - 1 / 1 * 0 := by
    simp
  have h2 : Real.exp (-(1:ℝ) * 0) - 1 / 1 * 2 ≤ 0 := by
    norm_num [Real.exp_zero]
  exact ⟨⟨h1, (C3_h_formula 1 1 0 0).1 h1⟩, h2, (C3_h_formula 1 1 0 2).2 h2⟩

/-- C10: applying the phase-update law `h` with a zero potential jump for
every neuron returns the phase vector unchanged (in exact arithmetic), for
positive parameters `I` and `gamma`. -/
theorem C10_h_identity_zero_eps (Ig : List (ℝ × ℝ)) (phs : List ℝ)
    (hlen : Ig.length = phs.length)
    (hpos : ∀ q ∈ Ig, 0 < q.1 ∧ 0 < q.2) :
    hVec Ig phs (List.replicate phs.length 0) = phs := by
  induction Ig generalizing phs with
  | nil =>
    have : phs = [] := by
      rcases phs with _ | ⟨φ, φs⟩
      · rfl
      · simp at hlen
    subst this
    rfl
  | cons q qs ih =>
    rcases phs with _ | ⟨φ, φs⟩
    · simp at hlen
    · have hq := hpos q (List.mem_cons_self q qs)
      have hlen2 : qs.length = φs.length := by simpa using hlen
      have hrest : ∀ r ∈ qs, 0 < r.1 ∧ 0 < r.2 := fun r hr =>
        hpos r (List.mem_cons_of_mem q hr)
      simp only [List.length_cons, List.replicate_succ, hVec]
      rw [hScalar_zero_eps q.1 q.2 φ (ne_of_gt hq.2)]
      rw [ih φs hlen2 hrest]

/-- Witness for C10 on the two-neuron vector `[3/10, 7/10]` with parameters
`(I, gamma) = (1, 1)` and `(1, 2)`. -/
theorem C10_h_identity_zero_eps_witness :
    (([((1:ℝ), (1:ℝ)), (1, 2)] : List (ℝ × ℝ)).length = ([3 / 10, 7 / 10] : List ℝ).length ∧
      ∀ q ∈ ([((1:ℝ), (1:ℝ)), (1, 2)] : List (ℝ × ℝ)), 0 < q.1 ∧ 0 < q.2) ∧
    hVec [((1:ℝ), (1:ℝ)), (1, 2)] [3 / 10, 7 / 10]
        (List.replicate ([3 / 10, 7 / 10] : List ℝ).length 0) = [3 / 10, 7 / 10] := by
  have hlen : ([((1:ℝ), (1:ℝ)), (1, 2)] : List (ℝ × ℝ)).length
      = ([3 / 10, 7 / 10] : List ℝ).length := rfl
  have hpos : ∀ q ∈ ([((1:ℝ), (1:ℝ)), (1, 2)] : List (ℝ × ℝ)), 0 < q.1 ∧ 0 < q.2 := by
    intro q hq
    simp only [List.mem_cons, List.not_mem_nil, or_false] at hq
    rcases hq with rfl | rfl <;> norm_num
  exact ⟨⟨hlen, hpos⟩, C10_h_identity_zero_eps _ _ hlen hpos⟩

/-- C1 (amended): after the pure self-threshold branch every phase lies in
`[0, 1)`, given non-negative input phases; the global `[0, 1.1]` bound of
the claim fails immediately after `h`, which can return values above the
sentinel (see the counterexample). -/
theorem C1_selfBranch_phase_bounds (p : Params) (us : ℕ → ℝ) (s : SysState)
    (hph : ∀ x ∈ s.phases, 0 ≤ x) (hA : branchATaken s) :
    ∀ y ∈ (jump p us s).phases, 0 ≤ y ∧ y < 1 := by
  unfold branchATaken at hA
  unfold jump
  rw [if_pos hA]
  simp only [stepA, fireReset]
  intro y hy
  simp only [List.mem_map] at hy
  obtain ⟨a, ha, rfl⟩ := hy
  obtain ⟨x, hx, rfl⟩ := ha
  by_cases hc : 1 ≤ x + max (1 - listMax s.phases) 0
  · rw [if_pos hc]
    exact ⟨le_rfl, by norm_num⟩
  · rw [if_neg hc]
    exact ⟨add_nonneg (hph x hx) (le_max_right _ _), not_le.mp hc⟩

/-- Witness for C1 (amended) at the concrete state `sSat0`. -/
theorem C1_selfBranch_phase_bounds_witness :
    (∀ x ∈ sSat0.phases, (0:ℝ) ≤ x) ∧ branchATaken sSat0 ∧
      ∀ y ∈ (jump pSat uC sSat0).phases, 0 ≤ y ∧ y < 1 := by
  have h1 : ∀ x ∈ sSat0.phases, (0:ℝ) ≤ x := by
    intro x hx
    simp only [sSat0] at hx
    simp only [List.mem_cons, List.not_mem_nil, or_false] at hx
    rw [hx]; norm_num
  have h2 : branchATaken sSat0 := by
    unfold branchATaken
    rw [selection_sSat0_fst]
    have e : listMax sSat0.phases = 1 / 2 := rfl
    rw [e]; norm_num
  exact ⟨h1, h2, C1_selfBranch_phase_bounds pSat uC sSat0 h1 h2⟩

/-- C1 counterexample: from the valid construction `N = [1]`,
`J_int = [[exp(-1/20) - exp(-2)]]`, `I = [1]`, `gamma = [1]`, `K = 1`,
`tau = 1/20` (state `sC10`, initial phase draw `1/2`), two simulation steps
produce the phase vector `[2]`: immediately after `h` a phase exceeds the
sentinel bound `1.1`, refuting the `[0, 1.1]` run invariant. -/
theorem C1_counterexample_h_exceeds_sentinel :
    (jump pC1 uC (jump pC1 uC sC10)).phases = [2] ∧
      ¬ ∀ y ∈ (jump pC1 uC (jump pC1 uC sC10)).phases, y ≤ 1.1 := by
  have h1 : (jump pC1 uC (jump pC1 uC sC10)).phases = [2] := by
    rw [jump_sC10, jump_sC11]
    rfl
  refine ⟨h1, ?_⟩
  rw [h1]
  push_neg
  refine ⟨2, by simp, by norm_num⟩

/-- C2 (amended): when every pending-delivery head and the earliest external
arrival (if present) lie strictly in the future of the clock, the pure
self-threshold branch is taken if and only if `dt_self = max(0, 1 -
max(phases))` is the strict unique minimum among `dt_self`, the time to the
queue head and the time to the nearest external arrival; and when taken the
step is exactly `stepA` (advance, reset, enqueue at `t + dt_self + tau`, no
epsilon applied).  Without the strictly-in-the-future hypotheses the
equivalence fails on reachable states (see the counterexample). -/
theorem C2_branchA_iff_strict_min (p : Params) (us : ℕ → ℝ) (s : SysState)
    (hmax : -499 < listMax s.phases)
    (hev : s.events ≠ [] → 0 < (s.events.headD (0, [])).1 - s.t)
    (hext : s.externalEvents ≠ [] → 0 < listMin s.externalEvents - s.t)
    (hx : ∀ x ∈ s.externalEvents, x ≠ 0) :
    (branchATaken s ↔ selfStrictMin s) ∧ (branchATaken s → jump p us s = stepA p s) := by
  constructor
  swap
  · intro h
    unfold branchATaken at h
    unfold jump
    rw [if_pos h]
  unfold branchATaken selfStrictMin
  by_cases hE : s.events = []
  · by_cases hX : s.externalEvents = []
    · have hs1 : (selection s).1 = 500 := by
        unfold selection selHead
        rw [if_neg (show ¬ extAny s.externalEvents by rw [hX]; exact extAny_nil), if_pos hE]
      rw [hs1]
      constructor
      · intro _
        exact ⟨fun hcon => absurd hE hcon, fun hcon => absurd hX hcon⟩
      · intro _
        linarith
    · have hA : extAny s.externalEvents := by
        obtain ⟨x0, hx0⟩ := List.exists_mem_of_ne_nil _ hX
        exact ⟨x0, hx0, hx x0 hx0⟩
      have hm : 0 < listMin s.externalEvents - s.t := hext hX
      have hsh : (selHead s).1 = 500 := by unfold selHead; rw [if_pos hE]
      by_cases hc : listMin s.externalEvents - s.t < (selHead s).1
      · have hs1 : (selection s).1 = listMin s.externalEvents - s.t := by
          unfold selection
          rw [if_pos hA, if_pos hc]
        rw [hs1]
        constructor
        · intro h
          exact ⟨fun hcon => absurd hE hcon, fun _ => max_lt_iff.mpr ⟨h, hm⟩⟩
        · rintro ⟨-, h2⟩
          exact lt_of_le_of_lt (le_max_left _ _) (h2 hX)
      · have hge : (500:ℝ) ≤ listMin s.externalEvents - s.t := by
          rw [← hsh]; exact not_lt.mp hc
        have hs1 : (selection s).1 = 500 := by
          unfold selection
          rw [if_pos hA, if_neg hc]
          by_cases he : listMin s.externalEvents - s.t = (selHead s).1
          · rw [if_pos he]
            exact hsh
          · rw [if_neg he]
            exact hsh
        rw [hs1]
        constructor
        · intro _
          refine ⟨fun hcon => absurd hE hcon, fun _ => ?_⟩
          have hlt : max (1 - listMax s.phases) 0 < 500 :=
            max_lt_iff.mpr ⟨by linarith, by norm_num⟩
          linarith
        · intro _
          linarith
  · have hb : 0 < (s.events.headD (0, [])).1 - s.t := hev hE
    have hsh1 : (selHead s).1 = (s.events.headD (0, [])).1 - s.t := by
      unfold selHead; rw [if_neg hE]
    by_cases hX : s.externalEvents = []
    · have hs1 : (selection s).1 = (s.events.headD (0, [])).1 - s.t := by
        unfold selection
        rw [if_neg (show ¬ extAny s.externalEvents by rw [hX]; exact extAny_nil)]
        exact hsh1
      rw [hs1]
      constructor
      · intro h
        exact ⟨fun _ => max_lt_iff.mpr ⟨h, hb⟩, fun hcon => absurd hX hcon⟩
      · rintro ⟨h1, -⟩
        exact lt_of_le_of_lt (le_max_left _ _) (h1 hE)
    · have hA : extAny s.externalEvents := by
        obtain ⟨x0, hx0⟩ := List.exists_mem_of_ne_nil _ hX
        exact ⟨x0, hx0, hx x0 hx0⟩
      have hm : 0 < listMin s.externalEvents - s.t := hext hX
      by_cases hc : listMin s.externalEvents - s.t < (selHead s).1
      · have hs1 : (selection s).1 = listMin s.externalEvents - s.t := by
          unfold selection
          rw [if_pos hA, if_pos hc]
        rw [hs1]
        rw [hsh1] at hc
        constructor
        · intro h
          have h2 : max (1 - listMax s.phases) 0 < listMin s.externalEvents - s.t :=
            max_lt_iff.mpr ⟨h, hm⟩
          exact ⟨fun _ => by linarith, fun _ => h2⟩
        · rintro ⟨-, h2⟩
          exact lt_of_le_of_lt (le_max_left _ _) (h2 hX)
      · have hge : (selHead s).1 ≤ listMin s.externalEvents - s.t := not_lt.mp hc
        have hs1 : (selection s).1 = (s.events.headD (0, [])).1 - s.t := by
          unfold selection
          rw [if_pos hA, if_neg hc]
          by_cases he : listMin s.externalEvents - s.t = (selHead s).1
          · rw [if_pos he]
            exact hsh1
          · rw [if_neg he]
            exact hsh1
        rw [hs1]
        rw [hsh1] at hge
        constructor
        · intro h
          have hlt : max (1 - listMax s.phases) 0 < (s.events.headD (0, [])).1 - s.t :=
            max_lt_iff.mpr ⟨h, hb⟩
          exact ⟨fun _ => hlt, fun _ => lt_of_lt_of_le hlt hge⟩
        · rintro ⟨h1, -⟩
          exact lt_of_le_of_lt (le_max_left _ _) (h1 hE)

/-- Witness for C2 (amended) at the concrete state `sSat0` (no pending
deliveries, no external neurons). -/
theorem C2_branchA_iff_strict_min_witness :
    ((-499:ℝ) < listMax sSat0.phases ∧
      (sSat0.events ≠ [] → 0 < (sSat0.events.headD (0, [])).1 - sSat0.t) ∧
      (sSat0.externalEvents ≠ [] → 0 < listMin sSat0.externalEvents - sSat0.t) ∧
      (∀ x ∈ sSat0.externalEvents, x ≠ 0)) ∧
    ((branchATaken sSat0 ↔ selfStrictMin sSat0) ∧
      (branchATaken sSat0 → jump pSat uC sSat0 = stepA pSat sSat0)) := by
  have h1 : (-499:ℝ) < listMax sSat0.phases := by
    have e : listMax sSat0.phases = 1 / 2 := rfl
    rw [e]; norm_num
  have h2 : sSat0.events ≠ [] → 0 < (sSat0.events.headD (0, [])).1 - sSat0.t := by
    intro hcon; exact absurd rfl hcon
  have h3 : sSat0.externalEvents ≠ [] → 0 < listMin sSat0.externalEvents - sSat0.t := by
    intro hcon; exact absurd rfl hcon
  have h4 : ∀ x ∈ sSat0.externalEvents, x ≠ 0 := by
    intro x hx
    simp [sSat0] at hx
  exact ⟨⟨h1, h2, h3, h4⟩, C2_branchA_iff_strict_min pSat uC sSat0 h1 h2 h3 h4⟩

/-- C2 counterexample: the state `sS1` is reached in one step from the valid
construction `pStale` (strong external coupling); there the code takes the
pure self-threshold branch although `dt_self = 0` is NOT the strict unique
minimum: the (stale) external arrival is due `1/20` in the past. -/
theorem C2_counterexample_stale_arrival :
    jump pStale uSt sS0 = sS1 ∧ branchATaken sS1 ∧ ¬ selfStrictMin sS1 := by
  refine ⟨jump_sS0, ?_, ?_⟩
  · unfold branchATaken
    rw [selection_sS1_fst]
    have e : listMax sS1.phases = 11 / 10 := rfl
    rw [e]; norm_num
  · unfold selfStrictMin
    rintro ⟨-, h2⟩
    have hne : sS1.externalEvents ≠ [] := by simp [sS1]
    have h3 := h2 hne
    have e1 : listMax sS1.phases = 11 / 10 := rfl
    have e2 : listMin sS1.externalEvents = 1 / 4 := rfl
    have e3 : sS1.t = 3 / 10 := rfl
    rw [e1, e2, e3] at h3
    have e4 : max (1 - (11:ℝ) / 10) 0 = 0 :=
      max_eq_right (by norm_num : (1:ℝ) - 11 / 10 ≤ 0)
    rw [e4] at h3
    linarith

/-- C4 (amended): whenever the run loop `while self.t < t_end` exits (the
fueled run returns a state), the final clock satisfies `t ≥ t_end`.
Termination itself FAILS for some valid constructions (see the
counterexample: `tau = 0` with a saturating self-coupling cycles forever). -/
theorem C4_run_exit_clock (p : Params) (tEnd : ℝ) :
    ∀ (n : ℕ) (us : ℕ → ℕ → ℝ) (s s2 : SysState),
      runFuel p tEnd us n s = some s2 → tEnd ≤ s2.t := by
  intro n
  induction n with
  | zero =>
    intro us s s2 h
    rw [runFuel] at h
    split_ifs at h with hc
    obtain rfl : s = s2 := Option.some.inj h
    exact not_lt.mp hc
  | succ n ih =>
    intro us s s2 h
    rw [runFuel] at h
    split_ifs at h with hc
    · exact ih _ _ _ h
    · obtain rfl : s = s2 := Option.some.inj h
      exact not_lt.mp hc

/-- Witness for C4 (amended): the `pSat` run with `t_end = 2/5` exits after
one step with clock `1/2 ≥ 2/5`. -/
theorem C4_run_exit_clock_witness :
    runFuel pSat (2 / 5) uZ 2 sSat0 = some sSat1 ∧ (2:ℝ) / 5 ≤ sSat1.t := by
  have h1 : runFuel pSat (2 / 5) uZ 2 sSat0 = some sSat1 := by
    rw [runFuel, if_pos (show sSat0.t < 2 / 5 by norm_num [sSat0])]
    rw [jump_sSat0]
    rw [runFuel, if_neg (show ¬ (sSat1.t < 2 / 5) by norm_num [sSat1])]
  exact ⟨h1, C4_run_exit_clock pSat (2 / 5) 2 uZ sSat0 sSat1 h1⟩

/-- C4 counterexample: the zero-delay saturating construction `pLoop`
(`N = [1]`, `J_int = [[5]]`, `K = 1`, `tau = 0`, valid per the spec, which
only requires `tau` non-negative) enters the two-step cycle
`sLB → sLA → sLB` with the clock frozen at `2/5 < t_end = 1`:
`run(t_end)` never terminates. -/
theorem C4_counterexample_nontermination : neverExits pLoop 1 uZ sL0 := by
  have hpair : ∀ (n : ℕ) (us : ℕ → ℕ → ℝ),
      runFuel pLoop 1 us n sLB = none ∧ runFuel pLoop 1 us n sLA = none := by
    intro n
    induction n with
    | zero =>
      intro us
      refine ⟨?_, ?_⟩
      · rw [runFuel, if_pos (show sLB.t < 1 by norm_num [sLB])]
      · rw [runFuel, if_pos (show sLA.t < 1 by norm_num [sLA])]
    | succ n ih =>
      intro us
      refine ⟨?_, ?_⟩
      · rw [runFuel, if_pos (show sLB.t < 1 by norm_num [sLB]), jump_sLB]
        exact (ih _).2
      · rw [runFuel, if_pos (show sLA.t < 1 by norm_num [sLA]), jump_sLA]
        exact (ih _).1
  intro n
  cases n with
  | zero => rw [runFuel, if_pos (show sL0.t < 1 by norm_num [sL0])]
  | succ n =>
    rw [runFuel, if_pos (show sL0.t < 1 by norm_num [sL0]), jump_sL0]
    exact (hpair n _).1

/-- C5 (amended): the spike-table row is recorded when a NEW pending delivery
is ENQUEUED (still in flight), and its first column is the EMISSION time
`t + dt_self` — the delivery's arrival time MINUS `tau` — followed by the
spike indicator vector of the neurons reset in that step. -/
theorem C5_spike_record_emission_time (p : Params) (us : ℕ → ℝ) (s : SysState) (lastT : ℝ)
    (hA : branchATaken s)
    (hlast : lastT < p.tau + s.t + max (1 - listMax s.phases) 0) :
    recordSpike p.tau lastT (jump p us s)
      = some (s.t + max (1 - listMax s.phases) 0,
          (fireReset (max (1 - listMax s.phases) 0) s.phases).1) := by
  unfold branchATaken at hA
  unfold jump
  rw [if_pos hA]
  simp only [stepA, recordSpike, List.getLast?_concat]
  rw [if_pos hlast]
  simp only [Option.some.injEq, Prod.mk.injEq]
  exact ⟨by ring, trivial⟩

/-- Witness for C5 (amended) at the concrete state `sSat0` with
`last_t = 0`. -/
theorem C5_spike_record_emission_time_witness :
    (branchATaken sSat0 ∧ (0:ℝ) < pSat.tau + sSat0.t + max (1 - listMax sSat0.phases) 0) ∧
      recordSpike pSat.tau 0 (jump pSat uC sSat0)
        = some (sSat0.t + max (1 - listMax sSat0.phases) 0,
            (fireReset (max (1 - listMax sSat0.phases) 0) sSat0.phases).1) := by
  have hA : branchATaken sSat0 := by
    unfold branchATaken
    rw [selection_sSat0_fst]
    have e : listMax sSat0.phases = 1 / 2 := rfl
    rw [e]; norm_num
  have hlast : (0:ℝ) < pSat.tau + sSat0.t + max (1 - listMax sSat0.phases) 0 := by
    have e : listMax sSat0.phases = 1 / 2 := rfl
    have e2 : max (1 - (1:ℝ) / 2) 0 = 1 / 2 := by
      rw [max_eq_left (by norm_num : (0:ℝ) ≤ 1 - 1 / 2)]
      norm_num
    rw [e, e2]
    norm_num [pSat, sSat0]
  exact ⟨⟨hA, hlast⟩, C5_spike_record_emission_time pSat uC sSat0 0 hA hlast⟩

/-- C5 counterexample: after the first step of the `pSat` run the recorded
spike row has first column `1/2` (the emission time), while the pending
delivery it describes arrives at `11/20 = 1/2 + tau` and is still in the
queue (not yet dequeued): the claim's "arrival time, recorded at dequeue"
is false. -/
theorem C5_counterexample_record_time :
    jump pSat uC sSat0 = sSat1 ∧
      recordSpike pSat.tau 0 sSat1 = some (1 / 2, [1]) ∧
      sSat1.events = [(11 / 20, [1])] ∧ ((1:ℝ) / 2 ≠ 11 / 20) := by
  refine ⟨jump_sSat0 uC, ?_, rfl, by norm_num⟩
  have e : sSat1.events.getLast? = some (11 / 20, [1]) := rfl
  unfold recordSpike
  rw [e]
  norm_num [pSat]

/-- C6 (amended): every simulation step appends exactly one phase row,
concatenating the flush chunks in numeric order reproduces the full row
list, and the time column is NON-decreasing provided every pending delivery
and external arrival lies at or after the clock at each step.  STRICT
increase, as claimed, fails: zero-dt steps repeat the clock value (see the
counterexample). -/
theorem C6_phase_rows (p : Params) (c n : ℕ) (us : ℕ → ℕ → ℝ) (s : SysState)
    (hgood : ∀ k, k < n → futureEvents (iterState p us k s)) :
    (phaseRows p us n s).length = n ∧
    (splitChunks c (phaseRows p us n s)).flatten = phaseRows p us n s ∧
    List.Chain' (· ≤ ·) ((phaseRows p us n s).map Prod.fst) := by
  refine ⟨phaseRows_length p n us s, splitChunks_flatten c _, ?_⟩
  exact (phaseRows_chain p n us s hgood).tail

/-- Witness for C6 (amended): the two-step `pSat` run with chunk capacity 1. -/
theorem C6_phase_rows_witness :
    (∀ k, k < 2 → futureEvents (iterState pSat uZ k sSat0)) ∧
    ((phaseRows pSat uZ 2 sSat0).length = 2 ∧
      (splitChunks 1 (phaseRows pSat uZ 2 sSat0)).flatten = phaseRows pSat uZ 2 sSat0 ∧
      List.Chain' (· ≤ ·) ((phaseRows pSat uZ 2 sSat0).map Prod.fst)) := by
  have hgood : ∀ k, k < 2 → futureEvents (iterState pSat uZ k sSat0) := by
    intro k hk
    interval_cases k
    · refine ⟨?_, ?_⟩ <;> intro a ha <;> simp [iterState, sSat0] at ha
    · have e : iterState pSat uZ 1 sSat0 = sSat1 := by
        simp only [iterState]
        exact jump_sSat0 _
      rw [e]
      refine ⟨?_, ?_⟩
      · intro ev hev
        simp only [sSat1, List.mem_cons, List.not_mem_nil, or_false] at hev
        rw [hev]
        norm_num [sSat1]
      · intro x hx
        simp [sSat1] at hx
  exact ⟨hgood, C6_phase_rows pSat 1 2 uZ sSat0 hgood⟩

/-- C6 counterexample: in the three-step `pSat` run the recorded times are
`[1/2, 11/20, 11/20]` — the third step is a zero-dt sentinel reset — so the
time column of the concatenated artifacts is NOT strictly increasing. -/
theorem C6_counterexample_times_not_strict :
    (phaseRows pSat uZ 3 sSat0).map Prod.fst = [1 / 2, 11 / 20, 11 / 20] ∧
      ¬ List.Chain' (· < ·) ((phaseRows pSat uZ 3 sSat0).map Prod.fst) := by
  have hrows : (phaseRows pSat uZ 3 sSat0).map Prod.fst = [1 / 2, 11 / 20, 11 / 20] := by
    simp only [phaseRows]
    rw [jump_sSat0, jump_sSat1, jump_sSat2]
    simp [sSat1, sSat2, sSat3]
  refine ⟨hrows, ?_⟩
  rw [hrows]
  norm_num [List.chain'_cons, List.chain'_singleton]

/-- C7 refutation (code bug): in the valid construction `pExt` (one neuron,
one external Poisson source, zero weights) the step from the reachable state
`sE1` applies `dt = -1/10 < 0` and the clock DECREASES from `3/10` to `1/5`.
Root cause: `get_InterSpikeInterval` (line 321) draws the next arrival from
the PRE-update clock `self.t`, so a redraw can schedule an external arrival
in the past; the delivery branch (lines 219-277) then applies the negative
`dt` without clamping. -/
theorem C7_clock_decreases :
    jump pExt uE1 sE0 = sE1 ∧ (jump pExt uE2 sE1).t = 1 / 5 ∧ sE1.t = 3 / 10 ∧
      ((1:ℝ) / 5 < 3 / 10) := by
  refine ⟨jump_sE0, ?_, rfl, by norm_num⟩
  rw [jump_sE1]
  rfl

/-- C8 (amended): construction performs NO input validation.  A non-positive
mean in-degree is accepted silently: with `K = 0` every Bernoulli transform
`1 - int(r + 1)` evaluates to 0, so the weight matrix is all zeros and the
object is fully constructed.  (Only a zero rate fails, incidentally, by
division by zero while drawing initial inter-spike intervals.) -/
theorem C8_no_validation (N : List ℕ) (J : List (List ℝ)) (r : List (List ℝ))
    (hdraw : ∀ rowL ∈ r, ∀ x ∈ rowL, 0 ≤ x ∧ x < 1) :
    ∀ rowL ∈ createWeightMatrix N J 0 r, ∀ y ∈ rowL, y = 0 := by
  intro rowL hrowL y hy
  unfold createWeightMatrix at hrowL
  rw [List.mem_map] at hrowL
  obtain ⟨row, hrowmem, rfl⟩ := hrowL
  rw [List.mem_range] at hrowmem
  rw [List.mem_map] at hy
  obtain ⟨col, hcolmem, rfl⟩ := hy
  rw [List.mem_range] at hcolmem
  have hrmem : r.getD row [] ∈ r := getD_mem_of_lt r row [] hrowmem
  have hxmem : (r.getD row []).getD col 0 ∈ r.getD row [] :=
    getD_mem_of_lt _ col 0 hcolmem
  obtain ⟨hx0, hx1⟩ := hdraw _ hrmem _ hxmem
  simp only [weightEntry]
  have h0 : (0:ℝ) / ((N.getD (popIndex N row) 0 : ℕ) : ℝ) = 0 := zero_div _
  rw [h0]
  have htr : pyTrunc ((r.getD row []).getD col 0 + (1 - 0)) = 1 := by
    unfold pyTrunc
    rw [if_neg (by linarith : ¬ ((r.getD row []).getD col 0 + (1 - 0) < 0))]
    rw [Int.floor_eq_iff]
    constructor
    · push_cast
      linarith
    · push_cast
      linarith
  rw [htr]
  norm_num

/-- Witness for C8 (amended): a single draw `1/2` with `N = [1]`,
`J = [[1]]`, `K = 0` produces the zero matrix. -/
theorem C8_no_validation_witness :
    (∀ rowL ∈ ([[1 / 2]] : List (List ℝ)), ∀ x ∈ rowL, 0 ≤ x ∧ x < 1) ∧
      ∀ rowL ∈ createWeightMatrix [1] [[1]] 0 [[1 / 2]], ∀ y ∈ rowL, y = 0 := by
  have hdraw : ∀ rowL ∈ ([[1 / 2]] : List (List ℝ)), ∀ x ∈ rowL, 0 ≤ x ∧ x < 1 := by
    intro rowL hrowL x hx
    simp only [List.mem_cons, List.not_mem_nil, or_false] at hrowL
    rw [hrowL] at hx
    simp only [List.mem_cons, List.not_mem_nil, or_false] at hx
    rw [hx]
    norm_num
  exact ⟨hdraw, C8_no_validation [1] [[1]] [[1 / 2]] hdraw⟩

/-- C8 counterexample: constructing a `System` with the non-positive
in-degree `K = 0` (two internal neurons, no externals) does NOT fail: the
source contains no validation and every operation is total, so `__init__`
returns a fully constructed object — here with an all-zero weight matrix —
instead of raising an input-validation error. -/
theorem C8_counterexample_silent_construction :
    systemInit [2] [[1]] [1, 1] [1 / 5, 1 / 5] 0 (1 / 20) [] [] [] [1 / 4, 3 / 4]
        [[1 / 4, 1 / 2], [1 / 3, 2 / 3]] [[], []] (fun _ => 1 / 2)
      = ({ tau := 1 / 20, W := [[0, 0], [0, 0]], Ig := [(1, 1 / 5), (1, 1 / 5)],
           NExt := [], rates := [] },
         { t := 0, phases := [1 / 4, 3 / 4], events := [], externalEvents := [] }) := by
  have hr2 : List.range 2 = [0, 1] := rfl
  have hr0 : List.range 0 = ([] : List ℕ) := rfl
  have hs2 : ([2] : List ℕ).sum = 2 := rfl
  have hs0 : ([] : List ℕ).sum = 0 := rfl
  have f14 : ⌊(1:ℝ) / 4⌋ = 0 := Int.floor_eq_zero_iff.mpr (Set.mem_Ico.mpr (by norm_num))
  have f12 : ⌊(1:ℝ) / 2⌋ = 0 := Int.floor_eq_zero_iff.mpr (Set.mem_Ico.mpr (by norm_num))
  have f13 : ⌊(1:ℝ) / 3⌋ = 0 := Int.floor_eq_zero_iff.mpr (Set.mem_Ico.mpr (by norm_num))
  have f23 : ⌊(2:ℝ) / 3⌋ = 0 := Int.floor_eq_zero_iff.mpr (Set.mem_Ico.mpr (by norm_num))
  simp only [systemInit, createWeightMatrix, createExtWeightMatrix, weightEntry,
    extWeightEntry, initIgamma, initExternalEvents, popIndex, rateLookup, hs2, hs0,
    List.length_cons, List.length_nil, hr2, hr0]
  norm_num [pyTrunc, List.zipWith, hr2, hr0, f14, f12, f13, f23]

/-- C9 (amended): for a target population `i` with
`size(population_i) ≤ K < 2 * size(population_i)` and uniform draws in
`[0, 1)`, every entry of the generated block equals `J[i, j]`: every edge is
present with exactly its nominal weight.  For `K ≥ 2 * size(population_i)`
the truncation can return `-1` and an edge carries `2 * J[i, j]` instead
(see the counterexample), so the claim's bound `K ≥ size` alone is not
enough. -/
theorem C9_full_block_weight (N : List ℕ) (J : List (List ℝ)) (K : ℝ) (r : List (List ℝ))
    (row col : ℕ) (hrow : row < r.length) (hcol : col < (r.getD row []).length)
    (hdraw : ∀ rowL ∈ r, ∀ x ∈ rowL, 0 ≤ x ∧ x < 1)
    (hK1 : ((N.getD (popIndex N row) 0 : ℕ) : ℝ) ≤ K)
    (hK2 : K < 2 * ((N.getD (popIndex N row) 0 : ℕ) : ℝ)) :
    ((createWeightMatrix N J K r).getD row []).getD col 0
      = (J.getD (popIndex N row) []).getD (popIndex N col) 0 := by
  rw [createWeightMatrix_entry N J K r row col hrow hcol]
  simp only [weightEntry]
  have hrmem : r.getD row [] ∈ r := getD_mem_of_lt r row [] hrow
  have hxmem : (r.getD row []).getD col 0 ∈ r.getD row [] :=
    getD_mem_of_lt _ col 0 hcol
  obtain ⟨hx0, hx1⟩ := hdraw _ hrmem _ hxmem
  have hnpos : (0:ℝ) < ((N.getD (popIndex N row) 0 : ℕ) : ℝ) := by nlinarith
  have hp1 : (1:ℝ) ≤ K / ((N.getD (popIndex N row) 0 : ℕ) : ℝ) :=
    (le_div_iff₀ hnpos).mpr (by linarith)
  have hp2 : K / ((N.getD (popIndex N row) 0 : ℕ) : ℝ) < 2 :=
    (div_lt_iff₀ hnpos).mpr (by linarith)
  have htr : pyTrunc ((r.getD row []).getD col 0
      + (1 - K / ((N.getD (popIndex N row) 0 : ℕ) : ℝ))) = 0 :=
    pyTrunc_eq_zero _ (by linarith) (by linarith)
  rw [htr]
  norm_num

/-- Witness for C9 (amended): `N = [1]`, `J = [[7]]`, `K = 3/2`, draw `1/2`:
the single edge carries weight exactly `7`. -/
theorem C9_full_block_weight_witness :
    ((0:ℕ) < ([[1 / 2]] : List (List ℝ)).length ∧
      (0:ℕ) < (([[1 / 2]] : List (List ℝ)).getD 0 []).length ∧
      (∀ rowL ∈ ([[1 / 2]] : List (List ℝ)), ∀ x ∈ rowL, 0 ≤ x ∧ x < 1) ∧
      ((([1] : List ℕ).getD (popIndex [1] 0) 0 : ℕ) : ℝ) ≤ 3 / 2 ∧
      (3:ℝ) / 2 < 2 * ((([1] : List ℕ).getD (popIndex [1] 0) 0 : ℕ) : ℝ)) ∧
    ((createWeightMatrix [1] [[7]] (3 / 2) [[1 / 2]]).getD 0 []).getD 0 0
      = (([[7]] : List (List ℝ)).getD (popIndex [1] 0) []).getD (popIndex [1] 0) 0 := by
  have hrow : (0:ℕ) < ([[1 / 2]] : List (List ℝ)).length := by norm_num
  have hcol : (0:ℕ) < (([[1 / 2]] : List (List ℝ)).getD 0 []).length := by norm_num
  have hdraw : ∀ rowL ∈ ([[1 / 2]] : List (List ℝ)), ∀ x ∈ rowL, 0 ≤ x ∧ x < 1 := by
    intro rowL hrowL x hx
    simp only [List.mem_cons, List.not_mem_nil, or_false] at hrowL
    rw [hrowL] at hx
    simp only [List.mem_cons, List.not_mem_nil, or_false] at hx
    rw [hx]
    norm_num
  have hK1 : ((([1] : List ℕ).getD (popIndex [1] 0) 0 : ℕ) : ℝ) ≤ 3 / 2 := by
    norm_num [popIndex]
  have hK2 : (3:ℝ) / 2 < 2 * ((([1] : List ℕ).getD (popIndex [1] 0) 0 : ℕ) : ℝ) := by
    norm_num [popIndex]
  exact ⟨⟨hrow, hcol, hdraw, hK1, hK2⟩,
    C9_full_block_weight [1] [[7]] (3 / 2) [[1 / 2]] 0 0 hrow hcol hdraw hK1 hK2⟩

/-- C9 counterexample: with `K = 3 ≥ size(population) = 1` and the uniform
draw `1/2 ∈ [0, 1)`, the generated edge carries weight `2` although
`J = [[1]]`: `int(1/2 + 1 - 3)` truncates `-3/2` toward zero to `-1`, so the
entry is `(1 - (-1)) * J = 2 * J ≠ J`. -/
theorem C9_counterexample_doubled_weight :
    ((createWeightMatrix [1] [[1]] 3 [[1 / 2]]).getD 0 []).getD 0 0 = 2 ∧ ((2:ℝ) ≠ 1) := by
  refine ⟨?_, by norm_num⟩
  rw [createWeightMatrix_entry [1] [[1]] 3 [[1 / 2]] 0 0 (by norm_num) (by norm_num)]
  simp only [weightEntry, popIndex]
  have hc : ⌈-((3:ℝ) / 2)⌉ = -1 := by
    rw [Int.ceil_eq_iff]
    constructor <;> push_cast <;> norm_num
  norm_num [pyTrunc, hc]
